import Mathlib

/-!
Verification of the EZ Compliance Tracker core engine
(rule/company matching, due-date cascade, calendar construction,
document verification lifecycle, document versioning, scoring).

Definitions are shallow embeddings of the repository's sources:
the auto-matching SQL query, the due-date pseudocode and the score
formulas of the PRD, the SQL schemas, and the frontend components
(UploadModal.handleFileChange, ProtectedRoute, CheckboxGroup.toggle,
dashboard grouping).  Backend engine parts absent from the repository
snapshot (CalendarBuilder, DocumentVerifier lifecycle) are modelled
from the specification and marked as such in their doc comments.
-/

namespace EasyComply

/-! ## Dates

`DATE` columns and Python `datetime.date` values are embedded as
year/month/day triples; `dateutil.relativedelta` month addition clamps
the day to the length of the target month. -/

structure Date where
  year : Nat
  month : Nat
  day : Nat
deriving DecidableEq, Repr

/-- Gregorian leap-year rule, as implemented by Python's `calendar`. -/
def isLeap (y : Nat) : Bool :=
  y % 4 = 0 && (y % 100 ≠ 0 || y % 400 = 0)

def daysInMonth (y m : Nat) : Nat :=
  if m = 2 then (if isLeap y then 29 else 28)
  else if m = 4 || m = 6 || m = 9 || m = 11 then 30
  else 31

/-- `d + relativedelta(months=k)`: month arithmetic with the day
clamped to the last day of the resulting month. -/
def addMonths (d : Date) (k : Nat) : Date :=
  let t := d.month - 1 + k
  let y := d.year + t / 12
  let m := t % 12 + 1
  ⟨y, m, min d.day (daysInMonth y m)⟩

/-- Lexicographic order on dates (`DATE` comparison). -/
def Date.le (a b : Date) : Bool :=
  a.year < b.year ||
    (a.year = b.year &&
      (a.month < b.month || (a.month = b.month && a.day ≤ b.day)))

/-- Strict lexicographic order on dates. -/
def Date.lt (a b : Date) : Bool :=
  Date.le a b && a ≠ b

/-! ## Data model

Embeds the `compliance_rules` and `companies` tables.  The three
filter dimensions are PostgreSQL `TEXT[]` arrays, embedded as lists of
strings; the sentinel is the one-element array `["ALL"]`. -/

inductive Subscription | Basic | Enterprise
deriving DecidableEq, Repr

inductive RuleScope | Company | Branch
deriving DecidableEq, Repr

inductive PenaltyImpact | Imprisonment | High | Medium | Low
deriving DecidableEq, Repr

structure Rule where
  rule_id : Nat
  industry_type : List String
  applicable_states : List String
  company_type : List String
  min_employees : Nat
  max_employees : Nat
  frequency_months : Nat
  fixed_due_day : Option Nat
  fixed_due_month : Option Nat
  document_required : Bool
  penalty_impact : PenaltyImpact
  scope : RuleScope
  is_active : Bool
deriving DecidableEq, Repr

structure Company where
  company_id : Nat
  industry_type : List String
  company_type : List String
  hq_state : String
  branch_states : List String
  employee_count : Nat
  subscription : Subscription
  created_at : Date
deriving DecidableEq, Repr

/-! ## MatchEngine

Embeds the AUTO-MATCHING QUERY of the PRD:

    (industry_type && :industries OR industry_type = ARRAY['ALL'])
    AND (applicable_states && :states OR applicable_states = ARRAY['ALL'])
    AND (company_type && :comp_types OR company_type = ARRAY['ALL'])
    AND (min_employees <= :emp_count AND max_employees >= :emp_count)
    AND is_active = TRUE

with the subscription gating `Basic: states = [hq_state]`,
`Enterprise: states = [hq_state + all branch_states]`. -/

/-- PostgreSQL array overlap `a && b`: some element occurs in both. -/
def arrayOverlap (a b : List String) : Bool :=
  a.any (fun x => b.contains x)

/-- The company's effective state set per the subscription gating. -/
def effectiveStates (c : Company) : List String :=
  match c.subscription with
  | .Basic => [c.hq_state]
  | .Enterprise => c.hq_state :: c.branch_states

/-- One dimension of the WHERE clause:
`ruleSet && companySet OR ruleSet = ARRAY['ALL']`. -/
def dimMatches (ruleSet companySet : List String) : Bool :=
  arrayOverlap ruleSet companySet || ruleSet = ["ALL"]

/-- The full WHERE clause of the auto-matching query for one rule. -/
def ruleMatches (r : Rule) (c : Company) : Bool :=
  dimMatches r.industry_type c.industry_type &&
  dimMatches r.applicable_states (effectiveStates c) &&
  dimMatches r.company_type c.company_type &&
  (decide (r.min_employees ≤ c.employee_count) &&
    decide (r.max_employees ≥ c.employee_count)) &&
  r.is_active

/-- `MatchEngine.match`: the rows of the catalog selected by the query. -/
def matchEngine (rules : List Rule) (c : Company) : List Rule :=
  rules.filter (fun r => ruleMatches r c)

/-! ## DueDateCalculator

Embeds section 10 of the PRD verbatim:

    if rule.fixed_due_day and rule.fixed_due_month:
        next_due = date(current_year, rule.fixed_due_month, rule.fixed_due_day)
    elif ocr_extracted_date:
        next_due = ocr_extracted_date + relativedelta(months=rule.frequency_months)
    else:
        next_due = company.created_at + relativedelta(months=rule.frequency_months)

The fixed-deadline branch always targets the current year of the
supplied evaluation date. -/

def computeNextDue (r : Rule) (c : Company) (ocrExtractedDate : Option Date)
    (today : Date) : Date :=
  match r.fixed_due_day, r.fixed_due_month with
  | some d, some m => ⟨today.year, m, d⟩
  | _, _ =>
    match ocrExtractedDate with
    | some e => addMonths e r.frequency_months
    | none => addMonths c.created_at r.frequency_months

/-- The claim's reading of the fixed-deadline source: day/month in the
current year, rolled to next year's occurrence when that date has
already passed relative to the evaluation date.  Stated from the
spec's words, for comparison with `computeNextDue`. -/
def claimedFixedDue (d m : Nat) (today : Date) : Date :=
  let thisYear : Date := ⟨today.year, m, d⟩
  if Date.lt thisYear today then ⟨today.year + 1, m, d⟩ else thisYear

/-! ## Calendar entries and the status lifecycle -/

/-- Values admitted by the `compliance_calendar.status` CHECK constraint.
`OVERDUE` is representable in storage (the column admits it); whether
any engine operation ever writes it is exactly what is proved below. -/
inductive Status
  | PENDING
  | COMPLETED
  | OVERDUE_PASS
  | FAILED
  | OVERDUE
deriving DecidableEq, Repr

/-- A `compliance_calendar` row, one per (company, rule, branch_state). -/
structure CalendarEntry where
  company_id : Nat
  rule_id : Nat
  branch_state : Option String
  due_date : Date
  status : Status
  ocr_verified : Bool
  ocr_result : Option (List String)
  verified_at : Option Date
  next_due_date : Option Date
deriving DecidableEq, Repr

/-- Modelled from the spec: the backend CalendarBuilder is not part of
the repository snapshot (only the PRD flow and the dashboards that read
its rows are).  §4.2: for each matched rule, scope `Branch` emits one
entry per state of the company's effective state set with
`branch_state` set, scope `Company` emits exactly one entry with
`branch_state = null`; every entry starts PENDING with a due date from
the DueDateCalculator with no OCR date available yet. -/
def buildEntry (r : Rule) (c : Company) (today : Date)
    (st : Option String) : CalendarEntry :=
  { company_id := c.company_id
    rule_id := r.rule_id
    branch_state := st
    due_date := computeNextDue r c none today
    status := .PENDING
    ocr_verified := false
    ocr_result := none
    verified_at := none
    next_due_date := none }

/-- Modelled from the spec (§4.2): the entries emitted for one
matched rule. -/
def buildFor (r : Rule) (c : Company) (today : Date) : List CalendarEntry :=
  match r.scope with
  | .Branch => (effectiveStates c).map (fun st => buildEntry r c today (some st))
  | .Company => [buildEntry r c today none]

/-- Modelled from the spec (§4.2): `CalendarBuilder.build`. -/
def build (matched : List Rule) (c : Company) (today : Date) :
    List CalendarEntry :=
  matched.flatMap (fun r => buildFor r c today)

/-- The OCR collaborator's already-resolved output handed to the
verifier: extracted text represented by the set of policy keywords it
contains, plus the extracted issue/renewal date. -/
structure OcrOutput where
  keywords : List String
  extracted_date : Date
deriving DecidableEq, Repr

/-- Modelled from the spec: the backend DocumentVerifier is not part of
the repository snapshot (only the UploadModal that renders its verdict
is).  §4.4 steps 2–4: missing required keywords → FAILED, the missing
list stored in the verification note, due date and next_due_date
untouched; otherwise the next cycle date comes from DueDateCalculator
priority 2, COMPLETED when the extracted issue date is on or before
the entry's current due date, OVERDUE-PASS when after it, and in both
cases next_due_date is set and due_date advanced to it. -/
def verify (required : List String) (r : Rule) (c : Company)
    (e : CalendarEntry) (ocr : OcrOutput) (today : Date) : CalendarEntry :=
  let missing := required.filter (fun k => !ocr.keywords.contains k)
  if missing ≠ [] then
    { e with status := .FAILED, ocr_verified := false,
             ocr_result := some missing, verified_at := some today }
  else
    let nextDue := computeNextDue r c (some ocr.extracted_date) today
    if Date.le ocr.extracted_date e.due_date then
      { e with status := .COMPLETED, ocr_verified := true,
               ocr_result := some [], verified_at := some today,
               due_date := nextDue, next_due_date := some nextDue }
    else
      { e with status := .OVERDUE_PASS, ocr_verified := true,
               ocr_result := some [], verified_at := some today,
               due_date := nextDue, next_due_date := some nextDue }

/-- Modelled from the spec (§4.4 step 5): the manual completion path
("mark done" / "re-do"): caller supplies an issue date and optional
custom expiry; without a custom expiry the next due date is the issue
date plus `frequency_months`; a permanent completion suppresses
`next_due_date` entirely. -/
def markDone (r : Rule) (e : CalendarEntry) (issue : Date)
    (customExpiry : Option Date) (permanent : Bool) (today : Date) :
    CalendarEntry :=
  if permanent then
    { e with status := .COMPLETED, verified_at := some today,
             next_due_date := none }
  else
    let nextDue := customExpiry.getD (addMonths issue r.frequency_months)
    { e with status := .COMPLETED, verified_at := some today,
             due_date := nextDue, next_due_date := some nextDue }

/-- An event of the lifecycle engine acting on one calendar entry. -/
inductive Event
  | upload (required : List String) (ocr : OcrOutput) (today : Date)
  | markdone (issue : Date) (customExpiry : Option Date)
      (permanent : Bool) (today : Date)

/-- One step of the lifecycle engine. -/
def stepEntry (r : Rule) (c : Company) (e : CalendarEntry) : Event → CalendarEntry
  | .upload required ocr today => verify required r c e ocr today
  | .markdone issue customExpiry permanent today =>
      markDone r e issue customExpiry permanent today

/-- Modelled from the spec (§4.4, read-time derived state): a stored
PENDING / COMPLETED / OVERDUE-PASS entry whose due date is in the past
is *presented* as OVERDUE; nothing is written back. -/
def derivedStatus (st : Status) (due : Date) (now : Date) : Status :=
  if Date.lt due now &&
      (st = .PENDING || st = .COMPLETED || st = .OVERDUE_PASS) then
    .OVERDUE
  else st

/-! ## VersionStore

Embeds the PRD S3 upload flow for one (company, rule) pair:
`Calculate version: last_version + 1` →
`Mark old docs: is_current = FALSE` →
`Insert new row in compliance_documents`. -/

structure DocVersion where
  version_number : Nat
  is_current : Bool
deriving DecidableEq, Repr

/-- `nextVersion`: 1 + the maximum existing version number for the
pair (so 1 when no version exists). -/
def nextVersion (docs : List DocVersion) : Nat :=
  (docs.map (fun d => d.version_number)).foldr max 0 + 1

/-- `promote`: demote every stored version, then insert the new row as
current, numbered `nextVersion`. -/
def promote (docs : List DocVersion) : List DocVersion :=
  docs.map (fun d => { d with is_current := false }) ++
    [⟨nextVersion docs, true⟩]

/-- `n` sequential promotions starting from `docs`. -/
def promoteN : Nat → List DocVersion → List DocVersion
  | 0, docs => docs
  | n + 1, docs => promote (promoteN n docs)

/-! ## ScoreEngine

Embeds section 9 of the PRD: the weight map per `penalty_impact`, the
status multipliers, and

    Score = (Σ weight × multiplier) / (Σ weight) × 100
    Risk  = (Σ weight of OVERDUE rules) / (Σ weight) × 100

computed in one pass; both are 0 when the total weight is 0.  Entries
carry the derived read-time status (so OVERDUE can occur here). -/

def weightOf : PenaltyImpact → ℚ
  | .Imprisonment => 40
  | .High => 30
  | .Medium => 20
  | .Low => 10

def multiplierOf : Status → ℚ
  | .COMPLETED => 1
  | .OVERDUE_PASS => 1 / 2
  | .PENDING => 0
  | .OVERDUE => 0
  | .FAILED => 0

/-- A calendar entry as the scorer sees it: the rule's penalty impact
joined to the entry's derived read-time status. -/
structure ScoredEntry where
  impact : PenaltyImpact
  status : Status
deriving DecidableEq, Repr

/-- One-pass accumulation of (total weight, weighted sum, overdue weight). -/
def scoreAcc (entries : List ScoredEntry) : ℚ × ℚ × ℚ :=
  entries.foldr
    (fun e acc =>
      let w := weightOf e.impact
      ( acc.1 + w,
        acc.2.1 + w * multiplierOf e.status,
        acc.2.2 + (if e.status = .OVERDUE then w else 0) ))
    (0, 0, 0)

/-- `ScoreEngine.score`: the (compliance, risk) pair. -/
def scoreEngine (entries : List ScoredEntry) : ℚ × ℚ :=
  let acc := scoreAcc entries
  if acc.1 = 0 then (0, 0)
  else (100 * acc.2.1 / acc.1, 100 * acc.2.2 / acc.1)

/-! ## UploadModal file selection (frontend)

Embeds `handleFileChange` of `UploadModal.jsx`: the chosen file, the
two error strings, the `<input>` element's value, and the size guard
`chosen.size > MAX_FILE_BYTES`. -/

structure FileMeta where
  name : String
  size : Nat
deriving DecidableEq, Repr

structure UploadModalState where
  file : Option FileMeta
  fileError : String
  apiError : String
  inputValue : String
deriving DecidableEq, Repr

def MAX_FILE_BYTES : Nat := 5 * 1024 * 1024

/-- `handleFileChange`: `e.target.files?.[0]` is `chosen`; absent →
no state change; oversized → error message, file reset to null, input
cleared; otherwise both errors cleared and the file accepted. -/
def handleFileChange (st : UploadModalState) (chosen : Option FileMeta) :
    UploadModalState :=
  match chosen with
  | none => st
  | some f =>
    if f.size > MAX_FILE_BYTES then
      { st with fileError := "File is too large. Maximum allowed size is 5 MB.",
                file := none, inputValue := "" }
    else
      { st with fileError := "", apiError := "", file := some f }

/-- `handleUpload`'s guard: a POST with the selected file is issued
only when a file is selected (`if (!file) ... return`). -/
def uploadRequest (st : UploadModalState) : Option FileMeta :=
  match st.file with
  | none => none
  | some f => some f

/-! ## ProtectedRoute (frontend)

Embeds `ProtectedRoute.jsx`.  A token in localStorage either fails
`jwtDecode` (the `catch` branch) or yields a payload whose `role` and
`exp` claims may each be absent.  JavaScript truthiness makes
`decoded.exp && decoded.exp < now` skip the expiry check when `exp`
is absent *or zero*. -/

structure JwtPayload where
  role : Option String
  exp : Option Int
deriving DecidableEq, Repr

/-- What the route does: render the wrapped page, or redirect to "/",
optionally removing the stored token first. -/
inductive RouteResult
  | render
  | redirect (tokenRemoved : Bool)
deriving DecidableEq, Repr

/-- JS truthiness of the numeric `exp` claim: falsy when absent or 0. -/
def expTruthy : Option Int → Bool
  | none => false
  | some e => e ≠ 0

/-- `ProtectedRoute`: `token` is `none` when localStorage has no
token, `some none` when `jwtDecode` throws, `some (some p)` when it
decodes to `p`; `now` is `Math.floor(Date.now() / 1000)`. -/
def protectedRoute (token : Option (Option JwtPayload)) (role : String)
    (now : Int) : RouteResult :=
  match token with
  | none => .redirect false
  | some none => .redirect true
  | some (some p) =>
    if expTruthy p.exp && p.exp.getD 0 < now then .redirect true
    else if role ≠ "" && p.role ≠ some role then .redirect false
    else .render

/-- The claim's reading of "expired at render time": the decoded
payload carries an `exp` claim lying strictly before the current
time.  Stated from the claim's words, for comparison with
`protectedRoute`. -/
def claimedExpired (p : JwtPayload) (now : Int) : Prop :=
  ∃ e, p.exp = some e ∧ e < now

/-! ## CheckboxGroup.toggle (frontend)

Embeds `toggle` of `RuleModal.jsx`'s multi-select groups:

    if (opt === 'ALL') return onChange(['ALL']);
    const next = value.filter((v) => v !== 'ALL');
    onChange(next.includes(opt) ? next.filter((v) => v !== opt) : [...next, opt]);
-/

def toggle (value : List String) (opt : String) : List String :=
  if opt = "ALL" then ["ALL"]
  else
    let next := value.filter (fun v => v ≠ "ALL")
    if next.contains opt then next.filter (fun v => v ≠ opt)
    else next ++ [opt]

/-- A sequence of toggle clicks applied to the selection. -/
def toggleAll (value : List String) (opts : List String) : List String :=
  opts.foldl toggle value

/-- A valid selection never mixes the sentinel with concrete tags. -/
def ValidSelection (value : List String) : Prop :=
  "ALL" ∈ value → value = ["ALL"]

/-! ## Theorems -/

lemma arrayOverlap_iff (a b : List String) :
    arrayOverlap a b = true ↔ ∃ t, t ∈ a ∧ t ∈ b := by
  simp [arrayOverlap, List.any_eq_true]

lemma dimMatches_iff (a b : List String) :
    dimMatches a b = true ↔ a = ["ALL"] ∨ ∃ t, t ∈ a ∧ t ∈ b := by
  rw [dimMatches, Bool.or_eq_true, arrayOverlap_iff, decide_eq_true_eq, or_comm]

lemma ruleMatches_iff (r : Rule) (c : Company) :
    ruleMatches r c = true ↔
      (r.industry_type = ["ALL"] ∨ ∃ t, t ∈ r.industry_type ∧ t ∈ c.industry_type) ∧
      (r.applicable_states = ["ALL"] ∨
        ∃ t, t ∈ r.applicable_states ∧ t ∈ effectiveStates c) ∧
      (r.company_type = ["ALL"] ∨ ∃ t, t ∈ r.company_type ∧ t ∈ c.company_type) ∧
      r.min_employees ≤ c.employee_count ∧
      c.employee_count ≤ r.max_employees ∧
      r.is_active = true := by
  simp [ruleMatches, dimMatches_iff, Bool.and_eq_true, decide_eq_true_eq]
  tauto

lemma mem_effectiveStates (c : Company) (s : String) :
    s ∈ effectiveStates c ↔
      s = c.hq_state ∨ (c.subscription = .Enterprise ∧ s ∈ c.branch_states) := by
  cases h : c.subscription <;> simp [effectiveStates, h]

/-- C1: `MatchEngine.match(rules, company)` selects exactly the rules
whose three dimensions each are the "ALL" sentinel or intersect the
company's corresponding set non-emptily (the state dimension being
checked against the effective state set: hq_state alone for Basic,
hq_state plus branch states for Enterprise), whose employee bounds
contain the company's employee count inclusively, and which are
active; a rule with an empty concrete set in any dimension matches no
company. -/
theorem matchEngine_selects_spec (rules : List Rule) (r : Rule) (c : Company) :
    (r ∈ matchEngine rules c ↔
      r ∈ rules ∧
      (r.industry_type = ["ALL"] ∨ ∃ t, t ∈ r.industry_type ∧ t ∈ c.industry_type) ∧
      (r.applicable_states = ["ALL"] ∨
        ∃ t, t ∈ r.applicable_states ∧ t ∈ effectiveStates c) ∧
      (r.company_type = ["ALL"] ∨ ∃ t, t ∈ r.company_type ∧ t ∈ c.company_type) ∧
      r.min_employees ≤ c.employee_count ∧
      c.employee_count ≤ r.max_employees ∧
      r.is_active = true) ∧
    (∀ s, s ∈ effectiveStates c ↔
      s = c.hq_state ∨ (c.subscription = .Enterprise ∧ s ∈ c.branch_states)) ∧
    ((r.industry_type = [] ∨ r.applicable_states = [] ∨ r.company_type = []) →
      r ∉ matchEngine rules c) := by
  refine ⟨?_, fun s => mem_effectiveStates c s, ?_⟩
  · rw [matchEngine, List.mem_filter, ruleMatches_iff]
  · intro hempty hmem
    rw [matchEngine, List.mem_filter, ruleMatches_iff] at hmem
    rcases hempty with h | h | h <;> simp [h] at hmem

/-- A rule with an empty concrete industry set, used as concrete input. -/
def emptyIndustryRule : Rule :=
  { rule_id := 3, industry_type := [], applicable_states := ["ALL"],
    company_type := ["ALL"], min_employees := 0, max_employees := 999999,
    frequency_months := 12, fixed_due_day := none, fixed_due_month := none,
    document_required := true, penalty_impact := .Low, scope := .Company,
    is_active := true }

/-- A rule carrying a fixed government deadline (day 20, month 10). -/
def fixedRule : Rule :=
  { rule_id := 7, industry_type := ["ALL"], applicable_states := ["ALL"],
    company_type := ["ALL"], min_employees := 0, max_employees := 999999,
    frequency_months := 12, fixed_due_day := some 20,
    fixed_due_month := some 10, document_required := true,
    penalty_impact := .High, scope := .Company, is_active := true }

/-- A Basic-subscription sample company. -/
def sampleCompany : Company :=
  { company_id := 42, industry_type := ["AI"], company_type := ["Pvt Ltd"],
    hq_state := "Gujarat", branch_states := ["Goa"], employee_count := 50,
    subscription := .Basic, created_at := ⟨2025, 1, 1⟩ }

/-- Closed instance of `matchEngine_selects_spec`: the empty-industry
rule is excluded for the sample company. -/
theorem matchEngine_selects_spec_witness :
    emptyIndustryRule ∉ matchEngine [emptyIndustryRule] sampleCompany :=
  (matchEngine_selects_spec [emptyIndustryRule] emptyIndustryRule
    sampleCompany).2.2 (Or.inl rfl)

/-- C2 counterexample: evaluated on 2026-11-05, a rule with
fixed_due_day = 20 and fixed_due_month = 10 yields 2026-10-20 — the
current-year occurrence even though that date has already passed —
not the next-year roll-forward asserted by the claim. -/
theorem computeNextDue_no_rollforward :
    computeNextDue fixedRule sampleCompany none ⟨2026, 11, 5⟩ = ⟨2026, 10, 20⟩ ∧
    claimedFixedDue 20 10 ⟨2026, 11, 5⟩ = ⟨2027, 10, 20⟩ ∧
    computeNextDue fixedRule sampleCompany none ⟨2026, 11, 5⟩ ≠
      claimedFixedDue 20 10 ⟨2026, 11, 5⟩ := by
  refine ⟨rfl, by decide, by decide⟩

/-- C2 (amended): the cascade evaluates sources in strict priority
order: with both fixed fields set the result is that day/month in the
current year of the evaluation date — with no roll-forward to the
next year — and any OCR-extracted date is ignored entirely;
otherwise a supplied OCR date yields that date plus frequency_months;
otherwise company.created_at plus frequency_months. -/
theorem computeNextDue_priority_cascade (r : Rule) (c : Company)
    (ocr : Option Date) (today : Date) :
    (∀ d m, r.fixed_due_day = some d → r.fixed_due_month = some m →
      computeNextDue r c ocr today = ⟨today.year, m, d⟩ ∧
      ∀ ocr', computeNextDue r c ocr' today = computeNextDue r c ocr today) ∧
    ((r.fixed_due_day = none ∨ r.fixed_due_month = none) →
      (∀ e, ocr = some e →
        computeNextDue r c ocr today = addMonths e r.frequency_months) ∧
      (ocr = none →
        computeNextDue r c ocr today =
          addMonths c.created_at r.frequency_months)) := by
  constructor
  · intro d m hd hm
    constructor
    · simp [computeNextDue, hd, hm]
    · intro ocr'
      simp [computeNextDue, hd, hm]
  · intro hfix
    have hred : ∀ o : Option Date, computeNextDue r c o today =
        match o with
        | some e => addMonths e r.frequency_months
        | none => addMonths c.created_at r.frequency_months := by
      intro o
      rcases hday : r.fixed_due_day with _ | d
      · cases hmon : r.fixed_due_month <;> simp [computeNextDue, hday, hmon]
      · rcases hmon : r.fixed_due_month with _ | m
        · simp [computeNextDue, hday, hmon]
        · rcases hfix with h | h
          · rw [hday] at h
            exact absurd h (by simp)
          · rw [hmon] at h
            exact absurd h (by simp)
    exact ⟨fun e he => by rw [hred, he], fun hn => by rw [hred, hn]⟩

/-- Closed instance of `computeNextDue_priority_cascade`: the fixed
deadline wins over a supplied OCR date. -/
theorem computeNextDue_priority_cascade_witness :
    computeNextDue fixedRule sampleCompany (some ⟨2026, 1, 15⟩) ⟨2026, 2, 1⟩ =
      ⟨2026, 10, 20⟩ :=
  ((computeNextDue_priority_cascade fixedRule sampleCompany
    (some ⟨2026, 1, 15⟩) ⟨2026, 2, 1⟩).1 20 10 rfl rfl).1

lemma scoreAcc_eq (entries : List ScoredEntry) :
    scoreAcc entries =
      ((entries.map (fun e => weightOf e.impact)).sum,
       (entries.map (fun e => weightOf e.impact * multiplierOf e.status)).sum,
       ((entries.filter (fun e => e.status = .OVERDUE)).map
          (fun e => weightOf e.impact)).sum) := by
  induction entries with
  | nil => rfl
  | cons e t ih =>
    have hstep : scoreAcc (e :: t) =
        ((scoreAcc t).1 + weightOf e.impact,
         (scoreAcc t).2.1 + weightOf e.impact * multiplierOf e.status,
         (scoreAcc t).2.2 +
           (if e.status = .OVERDUE then weightOf e.impact else 0)) := rfl
    rw [hstep, ih]
    by_cases h : e.status = .OVERDUE <;>
      simp [List.filter_cons, h] <;> ring_nf <;> simp [add_comm]

/-- C3: with the weight map {Imprisonment 40, High 30, Medium 20,
Low 10} on the rule's penalty impact and the status multipliers
{COMPLETED 1, OVERDUE-PASS 1/2, PENDING 0, OVERDUE 0, FAILED 0},
`ScoreEngine.score` returns compliance = 100·Σ(weight·multiplier)/Σweight
and risk = 100·(Σ weight of derived-OVERDUE entries)/Σweight, both 0
when the total weight is 0. -/
theorem scoreEngine_formula (entries : List ScoredEntry) :
    weightOf .Imprisonment = 40 ∧ weightOf .High = 30 ∧
    weightOf .Medium = 20 ∧ weightOf .Low = 10 ∧
    multiplierOf .COMPLETED = 1 ∧ multiplierOf .OVERDUE_PASS = 1 / 2 ∧
    multiplierOf .PENDING = 0 ∧ multiplierOf .OVERDUE = 0 ∧
    multiplierOf .FAILED = 0 ∧
    scoreEngine entries =
      (if (entries.map (fun e => weightOf e.impact)).sum = 0 then 0
       else 100 *
         (entries.map (fun e => weightOf e.impact * multiplierOf e.status)).sum /
           (entries.map (fun e => weightOf e.impact)).sum,
       if (entries.map (fun e => weightOf e.impact)).sum = 0 then 0
       else 100 *
         ((entries.filter (fun e => e.status = .OVERDUE)).map
             (fun e => weightOf e.impact)).sum /
           (entries.map (fun e => weightOf e.impact)).sum) := by
  refine ⟨rfl, rfl, rfl, rfl, rfl, rfl, rfl, rfl, rfl, ?_⟩
  rw [scoreEngine, scoreAcc_eq]
  by_cases h : (entries.map (fun e => weightOf e.impact)).sum = 0 <;> simp [h]

lemma stepEntry_status_ne_overdue (r : Rule) (c : Company) (e : CalendarEntry)
    (ev : Event) : (stepEntry r c e ev).status ≠ Status.OVERDUE := by
  cases ev with
  | upload required ocr today =>
    simp only [stepEntry, verify]
    split
    · simp
    · split <;> simp
  | markdone issue customExpiry permanent today =>
    simp only [stepEntry, markDone]
    split <;> simp

lemma foldl_stepEntry_status_ne_overdue (r : Rule) (c : Company)
    (evs : List Event) :
    ∀ e : CalendarEntry, e.status ≠ Status.OVERDUE →
      (evs.foldl (stepEntry r c) e).status ≠ Status.OVERDUE := by
  induction evs with
  | nil => exact fun e h => h
  | cons ev t ih =>
    exact fun e _ =>
      ih (stepEntry r c e ev) (stepEntry_status_ne_overdue r c e ev)

/-- C4: every calendar entry reachable from calendar construction via
lifecycle operations (upload verification, manual completion) carries
a stored status other than OVERDUE: no operation persists OVERDUE,
which exists only as the read-time view `derivedStatus`, and that view
shows OVERDUE only for entries whose due date lies in the past. -/
theorem stored_status_never_overdue (r : Rule) (c : Company) (today : Date)
    (st : Option String) (evs : List Event) :
    (evs.foldl (stepEntry r c) (buildEntry r c today st)).status ≠
      Status.OVERDUE ∧
    (∀ e ev, (stepEntry r c e ev).status ≠ Status.OVERDUE) ∧
    (∀ s due now, s ≠ Status.OVERDUE →
      derivedStatus s due now = Status.OVERDUE → Date.lt due now = true) := by
  refine ⟨?_, fun e ev => stepEntry_status_ne_overdue r c e ev, ?_⟩
  · exact foldl_stepEntry_status_ne_overdue r c evs _ (by simp [buildEntry])
  · intro s due now hs h
    rw [derivedStatus] at h
    split at h
    · rename_i hc
      rw [Bool.and_eq_true] at hc
      exact hc.1
    · exact absurd h hs

/-- Closed instance of `stored_status_never_overdue`: a PENDING entry
presented as OVERDUE on 2026-03-01 indeed has its due date in the
past. -/
theorem stored_status_never_overdue_witness :
    Date.lt ⟨2026, 1, 1⟩ ⟨2026, 3, 1⟩ = true :=
  (stored_status_never_overdue fixedRule sampleCompany ⟨2026, 1, 1⟩ none
    []).2.2 .PENDING ⟨2026, 1, 1⟩ ⟨2026, 3, 1⟩ (by decide) (by decide)

lemma foldr_max_mem : ∀ l : List Nat, l ≠ [] → l.foldr max 0 ∈ l := by
  intro l
  induction l with
  | nil => intro h; exact absurd rfl h
  | cons a t ih =>
    intro _
    cases ht : t with
    | nil => simp
    | cons b u =>
      rw [List.foldr_cons]
      rcases max_choice a (t.foldr max 0) with heq | heq
      · rw [ht] at heq
        rw [heq]
        exact List.mem_cons_self a _
      · rw [ht] at heq ih
        rw [heq]
        exact List.mem_cons_of_mem a (ih (by simp))

lemma foldr_max_le_of_mem {b : Nat} :
    ∀ {l : List Nat}, (∀ x ∈ l, x ≤ b) → l.foldr max b = b := by
  intro l
  induction l with
  | nil => intro _; rfl
  | cons a t ih =>
    intro h
    rw [List.foldr_cons, ih (fun x hx => h x (List.mem_cons_of_mem a hx))]
    exact Nat.max_eq_right (h a (List.mem_cons_self a t))

lemma foldr_max_range' (n : Nat) : (List.range' 1 n).foldr max 0 = n := by
  induction n with
  | zero => rfl
  | succ k ih =>
    rw [List.range'_concat, List.foldr_append]
    have h1 : List.foldr max 0 [1 + 1 * k] = k + 1 := by
      simp [Nat.add_comm]
    rw [h1]
    exact foldr_max_le_of_mem (fun x hx => by
      have := (List.mem_range'_1.mp hx).2
      omega)

lemma promoteN_versions (n : Nat) :
    (promoteN n []).map (fun d => d.version_number) = List.range' 1 n := by
  induction n with
  | zero => rfl
  | succ k ih =>
    have hmap : (promote (promoteN k [])).map (fun d => d.version_number) =
        (promoteN k []).map (fun d => d.version_number) ++
          [nextVersion (promoteN k [])] := by
      simp [promote]
    have hnext : nextVersion (promoteN k []) = k + 1 := by
      rw [nextVersion, ih, foldr_max_range']
    rw [promoteN, hmap, ih, hnext, List.range'_concat]
    simp [Nat.add_comm]

lemma promote_countP_current (docs : List DocVersion) :
    (promote docs).countP (fun d => d.is_current) = 1 := by
  rw [promote, List.countP_append, List.countP_map]
  simp [Function.comp_def, List.countP_cons]

/-- C5: `nextVersion` returns one more than the greatest stored
version number (1 when no version exists, and a strict upper bound on
every stored number); after any run of N sequential promotions the
store holds version numbers exactly 1..N with no gaps and, once N ≥ 1,
exactly one version marked current. -/
theorem versionStore_invariant (docs : List DocVersion) (n : Nat) :
    (docs = [] → nextVersion docs = 1) ∧
    (∀ d ∈ docs, d.version_number < nextVersion docs) ∧
    (docs ≠ [] → ∃ d ∈ docs, nextVersion docs = d.version_number + 1) ∧
    (promoteN n []).map (fun d => d.version_number) = List.range' 1 n ∧
    (1 ≤ n → (promoteN n []).countP (fun d => d.is_current) = 1) := by
  refine ⟨?_, ?_, ?_, promoteN_versions n, ?_⟩
  · intro h
    rw [h]
    rfl
  · intro d hd
    rw [nextVersion]
    have : d.version_number ≤ (docs.map (fun d => d.version_number)).foldr max 0 := by
      have hmem : d.version_number ∈ docs.map (fun d => d.version_number) :=
        List.mem_map_of_mem _ hd
      clear hd
      induction docs with
      | nil => cases hmem
      | cons a t ih =>
        rw [List.map_cons, List.foldr_cons]
        rcases List.mem_cons.mp hmem with h | h
        · rw [h]
          exact Nat.le_max_left _ _
        · exact Nat.le_trans (ih h) (Nat.le_max_right _ _)
    omega
  · intro h
    have hmem : (docs.map (fun d => d.version_number)).foldr max 0 ∈
        docs.map (fun d => d.version_number) :=
      foldr_max_mem _ (by simpa using h)
    rcases List.mem_map.mp hmem with ⟨d, hd, hv⟩
    exact ⟨d, hd, by rw [nextVersion, ← hv]⟩
  · intro hn
    rcases n with _ | k
    · omega
    · exact promote_countP_current (promoteN k [])

/-- Closed instance of `versionStore_invariant`: three sequential
promotions leave exactly one current version. -/
theorem versionStore_invariant_witness :
    (promoteN 3 []).countP (fun d => d.is_current) = 1 :=
  (versionStore_invariant [] 3).2.2.2.2 (by decide)

/-- C6: an upload whose OCR text misses at least one required keyword
drives the entry to FAILED with the missing keywords stored in the
verification note, while the due date, `next_due_date` (still null if
it was null) and every other scheduling-relevant field of the entry
are left exactly as they were. -/
theorem verify_failed_frame (required : List String) (r : Rule) (c : Company)
    (e : CalendarEntry) (ocr : OcrOutput) (today : Date)
    (h : ∃ k, k ∈ required ∧ k ∉ ocr.keywords) :
    (verify required r c e ocr today).status = Status.FAILED ∧
    (verify required r c e ocr today).ocr_result =
      some (required.filter (fun k => !ocr.keywords.contains k)) ∧
    required.filter (fun k => !ocr.keywords.contains k) ≠ [] ∧
    (verify required r c e ocr today).due_date = e.due_date ∧
    (verify required r c e ocr today).next_due_date = e.next_due_date ∧
    (e.next_due_date = none →
      (verify required r c e ocr today).next_due_date = none) ∧
    (verify required r c e ocr today).branch_state = e.branch_state ∧
    (verify required r c e ocr today).company_id = e.company_id ∧
    (verify required r c e ocr today).rule_id = e.rule_id := by
  obtain ⟨k, hk, hnk⟩ := h
  have hmem : k ∈ required.filter (fun k => !ocr.keywords.contains k) := by
    simp [List.mem_filter, hk, hnk]
  have hne : required.filter (fun k => !ocr.keywords.contains k) ≠ [] := by
    intro h0
    rw [h0] at hmem
    exact absurd hmem (List.not_mem_nil k)
  have hex : ∃ x ∈ required, x ∉ ocr.keywords := ⟨k, hk, hnk⟩
  refine ⟨?_, ?_, hne, ?_, ?_, ?_, ?_, ?_, ?_⟩ <;> simp [verify, hex]

/-- The initial calendar entry used as concrete input below. -/
def sampleEntry : CalendarEntry :=
  buildEntry fixedRule sampleCompany ⟨2026, 1, 1⟩ none

/-- Closed instance of `verify_failed_frame`: an OCR text containing
no keyword at all fails a policy requiring "GST". -/
theorem verify_failed_frame_witness :
    (verify ["GST"] fixedRule sampleCompany sampleEntry
      ⟨[], ⟨2026, 1, 1⟩⟩ ⟨2026, 2, 1⟩).status = Status.FAILED :=
  (verify_failed_frame ["GST"] fixedRule sampleCompany sampleEntry
    ⟨[], ⟨2026, 1, 1⟩⟩ ⟨2026, 2, 1⟩ ⟨"GST", by decide, by decide⟩).1

lemma mem_buildFor_rule_id {r : Rule} {c : Company} {today : Date}
    {e : CalendarEntry} (h : e ∈ buildFor r c today) :
    e.rule_id = r.rule_id := by
  cases hs : r.scope <;> simp [buildFor, hs] at h
  · rw [h]
    rfl
  · obtain ⟨st, _, hst⟩ := h
    rw [← hst]
    rfl

lemma mem_build_rule_id {matched : List Rule} {c : Company} {today : Date}
    {e : CalendarEntry} (h : e ∈ build matched c today) :
    e.rule_id ∈ matched.map (fun x => x.rule_id) := by
  rw [build, List.mem_flatMap] at h
  obtain ⟨x, hx, he⟩ := h
  rw [mem_buildFor_rule_id he]
  exact List.mem_map_of_mem _ hx

lemma build_filter_rule {matched : List Rule} {r : Rule} {c : Company}
    {today : Date} (hr : r ∈ matched)
    (hnd : (matched.map (fun x => x.rule_id)).Nodup) :
    (build matched c today).filter
      (fun e => e.rule_id = r.rule_id) = buildFor r c today := by
  induction matched with
  | nil => cases hr
  | cons x t ih =>
    rw [List.map_cons, List.nodup_cons] at hnd
    have hsplit : build (x :: t) c today =
        buildFor x c today ++ build t c today := by
      rw [build, build, List.flatMap_cons]
    rw [hsplit, List.filter_append]
    rcases List.mem_cons.mp hr with rfl | hr'
    · have h1 : (buildFor r c today).filter
          (fun e => e.rule_id = r.rule_id) = buildFor r c today :=
        List.filter_eq_self.mpr
          (fun e he => by simp [mem_buildFor_rule_id he])
      have h2 : (build t c today).filter
          (fun e => e.rule_id = r.rule_id) = [] := by
        rw [List.filter_eq_nil_iff]
        intro e he
        have := mem_build_rule_id he
        simp only [decide_eq_true_eq]
        intro heq
        rw [heq] at this
        exact hnd.1 this
      rw [h1, h2, List.append_nil]
    · have hxr : x.rule_id ≠ r.rule_id := by
        intro heq
        rw [heq] at hnd
        exact hnd.1 (List.mem_map_of_mem _ hr')
      have h1 : (buildFor x c today).filter
          (fun e => e.rule_id = r.rule_id) = [] := by
        rw [List.filter_eq_nil_iff]
        intro e he
        simp only [decide_eq_true_eq]
        rw [mem_buildFor_rule_id he]
        exact hxr
      rw [h1, ih hr' hnd.2, List.nil_append]

/-- C7: in `CalendarBuilder.build`, a matched Branch-scope rule fans
out to exactly one entry per state of the company's effective state
set with `branch_state` set (a single hq_state entry for a Basic
company), while a matched Company-scope rule yields exactly one entry
with `branch_state = null` no matter what its state filter covers. -/
theorem build_scope_fanout (matched : List Rule) (c : Company) (today : Date)
    (r : Rule) (hr : r ∈ matched)
    (hnd : (matched.map (fun x => x.rule_id)).Nodup) :
    (r.scope = RuleScope.Branch →
      ((build matched c today).filter
          (fun e => e.rule_id = r.rule_id)).map (fun e => e.branch_state) =
        (effectiveStates c).map some ∧
      (c.subscription = Subscription.Basic →
        (build matched c today).filter (fun e => e.rule_id = r.rule_id) =
          [buildEntry r c today (some c.hq_state)])) ∧
    (r.scope = RuleScope.Company →
      (build matched c today).filter (fun e => e.rule_id = r.rule_id) =
        [buildEntry r c today none]) := by
  rw [build_filter_rule hr hnd]
  refine ⟨fun hs => ⟨?_, fun hb => ?_⟩, fun hs => ?_⟩
  · simp [buildFor, hs, List.map_map, Function.comp_def, buildEntry]
  · simp [buildFor, hs, effectiveStates, hb]
  · simp [buildFor, hs]

/-- Closed instance of `build_scope_fanout`: for the Basic sample
company a Branch-scope rule produces exactly the one hq_state entry. -/
theorem build_scope_fanout_witness :
    (build [{ fixedRule with scope := RuleScope.Branch }] sampleCompany
        ⟨2026, 1, 1⟩).filter
      (fun e => e.rule_id =
        ({ fixedRule with scope := RuleScope.Branch } : Rule).rule_id) =
      [buildEntry { fixedRule with scope := RuleScope.Branch } sampleCompany
        ⟨2026, 1, 1⟩ (some sampleCompany.hq_state)] :=
  ((build_scope_fanout [{ fixedRule with scope := RuleScope.Branch }]
      sampleCompany ⟨2026, 1, 1⟩ { fixedRule with scope := RuleScope.Branch }
      (List.mem_singleton.mpr rfl) (by decide)).1 rfl).2 rfl

/-- C8: the upload modal's file-selection handler rejects any chosen
file larger than 5 × 1024 × 1024 bytes — it shows the size error,
resets the selected file to null and clears the input, so the upload
handler can issue no request — and accepts any file at or under the
limit, clearing both previous error messages. -/
theorem handleFileChange_size_guard (st : UploadModalState) (f : FileMeta) :
    (f.size > MAX_FILE_BYTES →
      handleFileChange st (some f) =
        { st with
            fileError := "File is too large. Maximum allowed size is 5 MB.",
            file := none, inputValue := "" } ∧
      uploadRequest (handleFileChange st (some f)) = none) ∧
    (f.size ≤ MAX_FILE_BYTES →
      handleFileChange st (some f) =
        { st with fileError := "", apiError := "", file := some f }) := by
  constructor
  · intro h
    constructor <;> simp [handleFileChange, uploadRequest, h]
  · intro h
    simp [handleFileChange, Nat.not_lt.mpr h]

/-- Closed instance of `handleFileChange_size_guard`: a 6 MB file
yields no upload request. -/
theorem handleFileChange_size_guard_witness :
    uploadRequest (handleFileChange ⟨none, "", "", ""⟩
      (some ⟨"big.pdf", 6 * 1024 * 1024⟩)) = none :=
  ((handleFileChange_size_guard ⟨none, "", "", ""⟩
    ⟨"big.pdf", 6 * 1024 * 1024⟩).1 (by decide)).2

/-- C9 counterexample: a token decoding to role "developer" with
exp = 0 is expired at any positive render time, yet JavaScript
truthiness (`decoded.exp && ...`) skips the expiry check, so the
route renders the protected page instead of redirecting, and the
token is not removed. -/
theorem protectedRoute_exp_zero_renders :
    claimedExpired ⟨some "developer", some 0⟩ 1700000000 ∧
    protectedRoute (some (some ⟨some "developer", some 0⟩)) "developer"
      1700000000 = RouteResult.render :=
  ⟨⟨0, rfl, by norm_num⟩, by decide⟩

/-- C9 (amended): for a non-empty required role, the route renders
exactly when the token exists, decodes, carries that role, and
triggers no expiry — where, due to JS truthiness, a token expires
only when its exp claim is present, non-zero and strictly before the
current time; the stored token is removed exactly when decoding fails
or that same expiry condition holds. -/
theorem protectedRoute_amended (token : Option (Option JwtPayload))
    (role : String) (now : Int) (hrole : role ≠ "") :
    (protectedRoute token role now = RouteResult.render ↔
      ∃ p, token = some (some p) ∧ p.role = some role ∧
        ¬ ∃ e, p.exp = some e ∧ e ≠ 0 ∧ e < now) ∧
    (protectedRoute token role now = RouteResult.redirect true ↔
      token = some none ∨
        ∃ p, token = some (some p) ∧ ∃ e, p.exp = some e ∧ e ≠ 0 ∧ e < now) := by
  match token with
  | none => simp [protectedRoute]
  | some none => simp [protectedRoute]
  | some (some p) =>
    have hexp : (expTruthy p.exp && p.exp.getD 0 < now) = true ↔
        ∃ e, p.exp = some e ∧ e ≠ 0 ∧ e < now := by
      rcases he : p.exp with _ | e
      · simp [expTruthy, he]
      · simp [expTruthy, he, Bool.and_eq_true, decide_eq_true_eq]
    by_cases hx : ∃ e, p.exp = some e ∧ e ≠ 0 ∧ e < now
    · rw [protectedRoute, if_pos (hexp.mpr hx)]
      constructor
      · constructor
        · intro h
          exact absurd h (by simp)
        · rintro ⟨p', hp', -, hne⟩
          obtain rfl : p = p' := Option.some.inj (Option.some.inj hp')
          exact absurd hx hne
      · exact ⟨fun _ => Or.inr ⟨p, rfl, hx⟩, fun _ => rfl⟩
    · rw [protectedRoute,
        if_neg (fun hc => hx (hexp.mp hc))]
      by_cases hr : p.role = some role
      · rw [if_neg (by simp [hr, hrole])]
        constructor
        · exact ⟨fun _ => ⟨p, rfl, hr, hx⟩, fun _ => rfl⟩
        · constructor
          · intro h
            exact absurd h (by simp)
          · rintro (h | ⟨p', hp', he⟩)
            · exact absurd h (by simp)
            · obtain rfl : p = p' := Option.some.inj (Option.some.inj hp')
              exact absurd he hx
      · rw [if_pos (by simp [hr, hrole])]
        constructor
        · constructor
          · intro h
            exact absurd h (by simp)
          · rintro ⟨p', hp', hrole', -⟩
            obtain rfl : p = p' := Option.some.inj (Option.some.inj hp')
            exact absurd hrole' hr
        · constructor
          · intro h
            exact absurd h (by simp)
          · rintro (h | ⟨p', hp', he⟩)
            · exact absurd h (by simp)
            · obtain rfl : p = p' := Option.some.inj (Option.some.inj hp')
              exact absurd he hx

/-- Closed instance of `protectedRoute_amended`: with no stored
token the route redirects without rendering. -/
theorem protectedRoute_amended_witness :
    protectedRoute none "developer" 1700000000 ≠ RouteResult.render := by
  intro h
  obtain ⟨p, hp, -, -⟩ :=
    (protectedRoute_amended none "developer" 1700000000 (by decide)).1.mp h
  exact Option.noConfusion hp

lemma toggle_all_not_mem (value : List String) (opt : String)
    (h : opt ≠ "ALL") : "ALL" ∉ toggle value opt := by
  rw [toggle, if_neg h]
  intro hmem
  by_cases hc : (value.filter (fun v => v ≠ "ALL")).contains opt
  · rw [if_pos hc] at hmem
    have := List.of_mem_filter (List.mem_of_mem_filter hmem)
    simp at this
  · rw [if_neg hc] at hmem
    rcases List.mem_append.mp hmem with hmem | hmem
    · have := List.of_mem_filter hmem
      simp at this
    · rw [List.mem_singleton] at hmem
      exact h hmem.symm

lemma validSelection_toggle (value : List String) (opt : String) :
    ValidSelection (toggle value opt) := by
  by_cases h : opt = "ALL"
  · rw [h, toggle, if_pos rfl]
    exact fun _ => rfl
  · exact fun hmem => absurd hmem (toggle_all_not_mem value opt h)

/-- C10: starting from a valid selection, any sequence of toggle
clicks keeps the multi-select group valid — the "ALL" sentinel never
coexists with a concrete tag; toggling "ALL" replaces the selection
with exactly ["ALL"], and toggling a concrete tag leaves no "ALL" in
the result at all. -/
theorem toggle_sentinel_invariant (value : List String) (opts : List String)
    (h : ValidSelection value) :
    ValidSelection (toggleAll value opts) ∧
    toggle value "ALL" = ["ALL"] ∧
    (∀ opt, opt ≠ "ALL" → "ALL" ∉ toggle value opt) := by
  refine ⟨?_, by rw [toggle, if_pos rfl], toggle_all_not_mem value⟩
  induction opts generalizing value with
  | nil => exact h
  | cons o t ih => exact ih (toggle value o) (validSelection_toggle value o)

/-- Closed instance of `toggle_sentinel_invariant`: clicking AI, ALL,
then IT from the default ["ALL"] selection leaves a valid selection. -/
theorem toggle_sentinel_invariant_witness :
    ValidSelection (toggleAll ["ALL"] ["AI", "ALL", "IT"]) :=
  (toggle_sentinel_invariant ["ALL"] ["AI", "ALL", "IT"]
    (fun _ => rfl)).1

end EasyComply


